import Mathlib

set_option linter.unusedVariables false

namespace MdastLint

/-! Data model: unist points, positions, mdast nodes. -/

/-- A unist point: line and column are 1-based in real documents; the model
uses 0 to stand for JavaScript `null`/`undefined` in any of the fields. -/
structure Point where
  line : Nat
  column : Nat
  offset : Nat
deriving Repr, DecidableEq

/-- A unist position: start and end points (`end` is a Lean keyword, the
field is named `stop`). -/
structure Position where
  start : Point
  stop : Point
deriving Repr, DecidableEq

/-- An mdast node, restricted to the node types the five rules inspect.
`position = none` models a node without the optional `position` field. -/
inductive Node where
  | root (children : List Node) (position : Option Position)
  | heading (depth : Nat) (children : List Node) (position : Option Position)
  | text (value : String) (position : Option Position)
  | html (value : String) (position : Option Position)
  | paragraph (children : List Node) (position : Option Position)
  | blockquote (children : List Node) (position : Option Position)
  | list (ordered : Bool) (children : List Node) (position : Option Position)
  | listItem (children : List Node) (position : Option Position)
  | definition (position : Option Position)
  | footnoteDefinition (children : List Node) (position : Option Position)

/-- The node's optional `position` field. -/
def Node.position : Node → Option Position
  | .root _ p => p
  | .heading _ _ p => p
  | .text _ p => p
  | .html _ p => p
  | .paragraph _ p => p
  | .blockquote _ p => p
  | .list _ _ p => p
  | .listItem _ p => p
  | .definition p => p
  | .footnoteDefinition _ p => p

/-- The node's children (`[]` for literal/leaf nodes). -/
def Node.childrenOf : Node → List Node
  | .root cs _ => cs
  | .heading _ cs _ => cs
  | .paragraph cs _ => cs
  | .blockquote cs _ => cs
  | .list _ cs _ => cs
  | .listItem cs _ => cs
  | .footnoteDefinition cs _ => cs
  | _ => []

def Node.isRoot : Node → Bool
  | .root _ _ => true
  | _ => false

def Node.isHeading : Node → Bool
  | .heading _ _ _ => true
  | _ => false

/-- `generated(node)` from unist-util-generated: true when the node has no
position or any of the four line/column fields is missing (0 models null). -/
def generated (n : Node) : Bool :=
  match n.position with
  | none => true
  | some p =>
      p.start.line == 0 || p.start.column == 0 || p.stop.line == 0 || p.stop.column == 0

/-- `pointStart(node)` from unist-util-position v3/v4 (used by the three
older-style rules): returns a point whose fields are null (modelled 0)
when the position is absent. -/
def pointStartOld (n : Node) : Point :=
  match n.position with
  | some p => p.start
  | none => ⟨0, 0, 0⟩

/-- `pointEnd(node)` from unist-util-position v3/v4. -/
def pointEndOld (n : Node) : Point :=
  match n.position with
  | some p => p.stop
  | none => ⟨0, 0, 0⟩

/-- `pointStart(node)` from unist-util-position v5 (used by
no-heading-indent): `undefined` unless line and column are positive. -/
def pointStartNew (n : Node) : Option Point :=
  match n.position with
  | some p => if p.start.line ≠ 0 ∧ p.start.column ≠ 0 then some p.start else none
  | none => none

/-- `stringifyPosition` from unist-util-stringify-position applied to a
point: each null-ish (0) coordinate prints as 1. -/
def stringifyPoint (p : Point) : String :=
  Nat.repr (if p.line == 0 then 1 else p.line) ++ ":" ++
    Nat.repr (if p.column == 0 then 1 else p.column)

/-- One reported finding: message text plus the start point it is anchored
at (`file.message(reason, node)` / `place`). -/
structure Diagnostic where
  message : String
  place : Point
deriving Repr, DecidableEq

/-! String layer: `toUpperCase`, mdast-util-to-string. -/

/-- The ASCII fragment of `String.prototype.toUpperCase` on one character
(`a`-`z` mapped to `A`-`Z`).  The real method applies the full Unicode
Default Case Conversion (for example `é` becomes `É` and `ß` expands to
`SS`); those tables live in the host runtime, not in this repository, and
are not embedded here.  The mapping is therefore faithful only on ASCII
input, and the theorems below that involve the normalization key treat it
as an opaque value: the duplicate-heading results are parametric in the
key, and their concrete instances use ASCII text only. -/
def jsUpperChar (c : Char) : Char :=
  if 97 ≤ c.toNat ∧ c.toNat ≤ 122 then Char.ofNat (c.toNat - 32) else c

/-- `String.prototype.toUpperCase` restricted to the character-wise ASCII
fragment of `jsUpperChar`; see that definition for the fragment's scope. -/
def jsToUpperCase (s : String) : String :=
  ⟨s.data.map jsUpperChar⟩

/-- `toString(node)` from mdast-util-to-string: the value of literal nodes,
otherwise the concatenation of the children's text. -/
def nodeToString : Node → String
  | .text v _ => v
  | .html v _ => v
  | .root cs _ => go cs
  | .heading _ cs _ => go cs
  | .paragraph cs _ => go cs
  | .blockquote cs _ => go cs
  | .list _ cs _ => go cs
  | .listItem cs _ => go cs
  | .definition _ => ""
  | .footnoteDefinition cs _ => go cs
where go : List Node → String
  | [] => ""
  | n :: rest => nodeToString n ++ go rest

/-- The heading-text normalization of no-duplicate-headings-in-section:
`toString(node).toUpperCase()` applied to the rendered text (ASCII
fragment, see `jsUpperChar`). -/
def normalize (s : String) : String := jsToUpperCase s

/-! The no-duplicate-headings-in-section rule
(src/packages/remark-lint-no-duplicate-headings-in-section/index.js). -/

/-- A scope map from normalized heading text to the most recent heading
recorded under that key: a JavaScript object used as a dictionary. -/
abbrev Scope := List (String × Node)

/-- Property read on a scope object. -/
def scopeGet (sc : Scope) (k : String) : Option Node :=
  match sc with
  | [] => none
  | (k2, n) :: rest => if k2 == k then some n else scopeGet rest k

/-- Property write on a scope object. -/
def scopeSet (sc : Scope) (k : String) (n : Node) : Scope :=
  match sc with
  | [] => [(k, n)]
  | (k2, n2) :: rest => if k2 == k then (k, n) :: rest else (k2, n2) :: scopeSet rest k n

/-- The depth-indexed stack of scope maps; `none` entries model the holes a
JavaScript sparse array gets when an index beyond the length is assigned. -/
abbrev Stack := List (Option Scope)

/-- Extend the array to length at least `n` by holes, as assigning at an
out-of-bounds index does in JavaScript. -/
def padTo (st : Stack) (n : Nat) : Stack :=
  st ++ List.replicate (n - st.length) none

/-- `stack[index] = scope` including the array extension. -/
def stackSet (st : Stack) (i : Nat) (sc : Scope) : Stack :=
  (padTo st (i + 1)).set i (some sc)

/-- The mutable state of one rule invocation: the scope stack and the
messages emitted so far. -/
structure DupState where
  stack : Stack
  diags : List Diagnostic

/-- The message emitted for a duplicate heading, anchored at the current
node and citing the recorded node's start position. -/
def dupDiag (current duplicate : Node) : Diagnostic :=
  ⟨"Do not use headings with similar content per section (" ++
      stringifyPoint (pointStartOld duplicate) ++ ")",
    pointStartOld current⟩

/-- `stack[index] || (stack[index] = {})` as a read: the scope stored at
the index, or a fresh empty one when the slot is absent or a hole. -/
def scopeAt (st : Stack) (i : Nat) : Scope :=
  match st.get? i with
  | some (some sc) => sc
  | _ => []

/-- The visitor body of no-duplicate-headings-in-section for one `heading`
node: look up `scope = stack[depth-1]` (allocating it when absent), emit a
message when the current node is not generated and the normalized text was
already recorded there, record the current node, then truncate the stack
to length `depth` (`stack = stack.slice(0, depth)`). -/
def dupVisit (st : DupState) (n : Node) : DupState :=
  match n with
  | .heading depth _ _ =>
      let value := normalize (nodeToString n)
      let index := depth - 1
      let scope := scopeAt st.stack index
      let duplicate := scopeGet scope value
      let newDiags :=
        match duplicate with
        | some dup => if generated n then st.diags else st.diags ++ [dupDiag n dup]
        | none => st.diags
      ⟨(stackSet st.stack index (scopeSet scope value n)).take depth, newDiags⟩
  | _ => st

/-- `visit(tree, 'heading', ...)`: the heading nodes of the tree in
pre-order (document order). -/
def headingsNode : Node → List Node
  | .heading d cs p => .heading d cs p :: go cs
  | .root cs _ => go cs
  | .paragraph cs _ => go cs
  | .blockquote cs _ => go cs
  | .list _ cs _ => go cs
  | .listItem cs _ => go cs
  | .footnoteDefinition cs _ => go cs
  | _ => []
where go : List Node → List Node
  | [] => []
  | n :: rest => headingsNode n ++ go rest

/-- Run the duplicate-heading visitor over a heading list, starting from
the empty stack created at the start of the rule invocation. -/
def dupRun (hs : List Node) : DupState :=
  hs.foldl dupVisit ⟨[], []⟩

/-- The whole rule: traverse the headings in document order and collect
the messages. -/
def remarkLintNoDuplicateHeadingsInSection (tree : Node) : List Diagnostic :=
  (dupRun (headingsNode tree)).diags

/-! The first-heading-level rule
(src/packages/remark-lint-first-heading-level/index.js). -/

/-- One attempt of the regex `/<h([1-6])/` at a fixed position: a match
succeeds when the text starts with `<h` followed by a digit 1-6. -/
def hTagHead : List Char → Option Nat
  | '<' :: 'h' :: c :: _ =>
      if 49 ≤ c.toNat ∧ c.toNat ≤ 54 then some (c.toNat - 48) else none
  | _ => none

/-- Regex scanning: try the pattern at each position, left to right. -/
def inferScan : List Char → Option Nat
  | [] => none
  | c :: rest =>
      match hTagHead (c :: rest) with
      | some r => some r
      | none => inferScan rest

/-- `infer(node)`: the rank captured by the first match of `/<h([1-6])/`
in the html node's raw value, if any. -/
def infer (value : String) : Option Nat :=
  inferScan value.data

/-- The rank the visitor computes for a node: the depth of a heading, the
inferred rank of an html node, undefined otherwise. -/
def rankOf : Node → Option Nat
  | .heading d _ _ => some d
  | .html v _ => infer v
  | _ => none

/-- The diagnostic text of first-heading-level. -/
def fhlMsg (preferred : Nat) : String :=
  "First heading level should be `" ++ Nat.repr preferred ++ "`"

/-- The visitor body of first-heading-level: skip generated nodes; on the
first node with a defined rank, emit a message when the rank differs from
the preferred one and return EXIT.  `some msgs` models returning EXIT
(with the messages emitted at this visit), `none` models continuing. -/
def fhlCallback (preferred : Nat) (n : Node) : Option (List Diagnostic) :=
  if generated n then none
  else
    match rankOf n with
    | some rank =>
        some (if rank ≠ preferred then [⟨fhlMsg preferred, pointStartOld n⟩] else [])
    | none => none

/-- Continue the EXIT-capable traversal below a node: the subtrees to
descend into after the visitor returned nothing at the node itself. -/
def fhlBelow : Node → List Node
  | .root cs _ => cs
  | .heading _ cs _ => cs
  | .paragraph cs _ => cs
  | .blockquote cs _ => cs
  | .list _ cs _ => cs
  | .listItem cs _ => cs
  | .footnoteDefinition cs _ => cs
  | _ => []

/-- Visit one node and fall through to the traversal of its children when
the visitor does not EXIT at it. -/
def fhlStep (preferred : Nat) (n : Node) (rest : Option (List Diagnostic)) :
    Option (List Diagnostic) :=
  match fhlCallback preferred n with
  | some ds => some ds
  | none => rest

/-- `visit(tree, visitor)` where the visitor may return EXIT: pre-order
depth-first traversal that stops the whole walk at the first EXIT. -/
def fhlVisitNode (preferred : Nat) : Node → Option (List Diagnostic)
  | .root cs p => fhlStep preferred (.root cs p) (go cs)
  | .heading d cs p => fhlStep preferred (.heading d cs p) (go cs)
  | .paragraph cs p => fhlStep preferred (.paragraph cs p) (go cs)
  | .blockquote cs p => fhlStep preferred (.blockquote cs p) (go cs)
  | .list o cs p => fhlStep preferred (.list o cs p) (go cs)
  | .listItem cs p => fhlStep preferred (.listItem cs p) (go cs)
  | .footnoteDefinition cs p => fhlStep preferred (.footnoteDefinition cs p) (go cs)
  | .text v p => fhlStep preferred (.text v p) none
  | .html v p => fhlStep preferred (.html v p) none
  | .definition p => fhlStep preferred (.definition p) none
where go : List Node → Option (List Diagnostic)
  | [] => none
  | n :: rest =>
      match fhlVisitNode preferred n with
      | some ds => some ds
      | none => go rest

/-- The option resolution `option && option !== true ? option : 1` for a
numeric or absent option (0 is falsy in JavaScript and also yields 1). -/
def fhlPreferred : Option Nat → Nat
  | some n => if n == 0 then 1 else n
  | none => 1

/-- The whole first-heading-level rule. -/
def remarkLintFirstHeadingLevel (option : Option Nat) (tree : Node) : List Diagnostic :=
  match fhlVisitNode (fhlPreferred option) tree with
  | some ds => ds
  | none => []

/-- All nodes of the tree in pre-order (document order); used to state
which node the EXIT-ing traversal selects. -/
def preorderNode : Node → List Node
  | .root cs p => .root cs p :: go cs
  | .heading d cs p => .heading d cs p :: go cs
  | .paragraph cs p => .paragraph cs p :: go cs
  | .blockquote cs p => .blockquote cs p :: go cs
  | .list o cs p => .list o cs p :: go cs
  | .listItem cs p => .listItem cs p :: go cs
  | .footnoteDefinition cs p => .footnoteDefinition cs p :: go cs
  | .text v p => [.text v p]
  | .html v p => [.html v p]
  | .definition p => [.definition p]
where go : List Node → List Node
  | [] => []
  | n :: rest => preorderNode n ++ go rest

/-- A node at which the first-heading-level visitor EXITs: not generated
and rank-bearing. -/
def qualifies (n : Node) : Bool :=
  !generated n && (rankOf n).isSome

/-- The messages the visitor emits at the node it EXITs on. -/
def emitFor (preferred : Nat) (n : Node) : List Diagnostic :=
  match rankOf n with
  | some rank => if rank ≠ preferred then [⟨fhlMsg preferred, pointStartOld n⟩] else []
  | none => []

/-- Modelled from the spec: "raw inline/block HTML matching a *leading*
`<h1>`..`<h6>` tag" — the regex attempt only at the start of the value. -/
def inferLeading (value : String) : Option Nat :=
  hTagHead value.data

/-- Modelled from the amended claim: the rank of the leftmost `<h1>`..`<h6>`
tag occurring *anywhere* in the value. -/
def inferAnywhere (value : String) : Option Nat :=
  value.data.tails.findSome? hTagHead

/-! The unordered-list-marker-style rule
(src/packages/remark-lint-first-heading-level/index.js, second part). -/

/-- A JavaScript configuration value as the rule receives it. -/
inductive JSValue where
  | undefined
  | str (s : String)
  | num (n : Int)
  | bool (b : Bool)
deriving Repr, DecidableEq

/-- The `styles` lookup `styles[preferred] === true`: the object maps the
keys `-`, `*`, `+` and `undefined` to `true` (an `undefined` preferred
style is coerced to the property name "undefined", which is present). -/
def stylesHas : Option String → Bool
  | none => true
  | some s => s == "-" || s == "*" || s == "+" || s == "undefined"

/-- Whitespace per the JavaScript `\s` class (ASCII part). -/
def isJsWs (c : Char) : Bool :=
  c == ' ' || c == '\t' || c == '\n' || c == '\x0b' || c == '\x0c' || c == '\r'

/-- `String.prototype.slice(a, b)` on non-negative indexes. -/
def jsSlice (s : String) (a b : Nat) : String :=
  ⟨(s.data.take b).drop a⟩

/-- `.replace(/\[[x ]?]\s*$/i, '')`: drop one trailing checkbox-like
suffix (`[]`, `[x]`, `[X]` or `[ ]`) together with the whitespace after
it; when the pattern does not match, the string is unchanged. -/
def stripCheckbox (s : String) : String :=
  match (s.data.reverse.dropWhile isJsWs) with
  | ']' :: '[' :: rest => ⟨rest.reverse⟩
  | ']' :: c :: '[' :: rest =>
      if c == 'x' || c == 'X' || c == ' ' then ⟨rest.reverse⟩ else s
  | _ => s

/-- `.replace(/\s/g, '')`: remove every whitespace character. -/
def removeWs (s : String) : String :=
  ⟨s.data.filter (fun c => !isJsWs c)⟩

/-- The marker extraction for one list item: slice the raw source from the
item's start offset to its first child's start offset, strip a checkbox
suffix, strip whitespace. -/
def ulmsMarker (value : String) (child : Node) : String :=
  let a := (pointStartOld child).offset
  let b :=
    match child.childrenOf.head? with
    | some c => (pointStartOld c).offset
    | none => 0
  removeWs (stripCheckbox (jsSlice value a b))

/-- The inner loop over the children of one unordered list node, threading
the `preferred` style (`none` while no style has been fixed yet). -/
def ulmsItems (value : String) (pref : Option String) :
    List Node → List Diagnostic × Option String
  | [] => ([], pref)
  | child :: rest =>
      if generated child then ulmsItems value pref rest
      else
        let marker := ulmsMarker value child
        match pref with
        | some p =>
            let ds :=
              if marker ≠ p then [⟨"Marker style should be `" ++ p ++ "`", pointStartOld child⟩]
              else []
            let (ds2, p2) := ulmsItems value (some p) rest
            (ds ++ ds2, p2)
        | none => ulmsItems value (some marker) rest

/-- `visit(tree, 'list', ...)` for unordered-list-marker-style: pre-order
traversal running the item loop at every non-ordered list node, threading
the `preferred` state through the whole walk. -/
def ulmsNode (value : String) (pref : Option String) :
    Node → List Diagnostic × Option String
  | .list ordered cs p =>
      if ordered then go value pref cs
      else
        let (ds, pref2) := ulmsItems value pref cs
        let (ds2, pref3) := go value pref2 cs
        (ds ++ ds2, pref3)
  | .root cs _ => go value pref cs
  | .heading _ cs _ => go value pref cs
  | .paragraph cs _ => go value pref cs
  | .blockquote cs _ => go value pref cs
  | .listItem cs _ => go value pref cs
  | .footnoteDefinition cs _ => go value pref cs
  | _ => ([], pref)
where go (value : String) (pref : Option String) :
    List Node → List Diagnostic × Option String
  | [] => ([], pref)
  | n :: rest =>
      let (ds, p2) := ulmsNode value pref n
      let (ds2, p3) := go value p2 rest
      (ds ++ ds2, p3)

/-- The fatal configuration message (`file.fail`). -/
def ulmsFatal (preferred : Option String) : String :=
  "Incorrect unordered list item marker style `" ++
    (match preferred with | some s => s | none => "undefined") ++
    "`: use either `'-'`, `'*'`, or `'+'`"

/-- The whole unordered-list-marker-style rule.  `option` is the raw
configuration value, `value` is `String(file)` (the raw source).
`Except.error` models `file.fail` throwing before any node is visited. -/
def remarkLintUnorderedListMarkerStyle (option : JSValue) (value : String) (tree : Node) :
    Except String (List Diagnostic) :=
  let preferred : Option String :=
    match option with
    | .str s => if s == "consistent" then none else some s
    | _ => none
  if stylesHas preferred then .ok (ulmsNode value preferred tree).1
  else .error (ulmsFatal preferred)

/-! The no-heading-indent rule
(src/packages/remark-lint-no-duplicate-headings-in-section/index.js,
second part). -/

/-- Models the pluralize package on the regular noun used by the rule. -/
def pluralizeWord (word : String) (count : Nat) : String :=
  if count == 1 then word else word ++ "s"

/-- The check for one visited heading: skipped unless the start point is
defined and the immediate parent (the last element of the ancestor chain,
modelled as the head of the reversed chain) is the document root; then a
message is emitted iff `actual = start.column - 1` is nonzero. -/
def nhiCheck (parents : List Node) (n : Node) : List Diagnostic :=
  match pointStartNew n, parents.head? with
  | some start, some parent =>
      if parent.isRoot then
        let actual := start.column - 1
        if actual ≠ 0 then
          [⟨"Unexpected `" ++ Nat.repr actual ++ "` " ++ pluralizeWord "space" actual ++
              " before heading, expected `0` spaces, remove `" ++ Nat.repr actual ++ "` " ++
              pluralizeWord "space" actual,
            start⟩]
        else []
      else []
  | _, _ => []

/-- `visitParents(tree, 'heading', ...)`: every node is entered with its
ancestor chain (most recent ancestor first); the check runs at heading
nodes only. -/
def nhiNode (parents : List Node) : Node → List Diagnostic
  | .heading d cs p =>
      nhiCheck parents (.heading d cs p) ++ go (.heading d cs p :: parents) cs
  | .root cs p => go (.root cs p :: parents) cs
  | .paragraph cs p => go (.paragraph cs p :: parents) cs
  | .blockquote cs p => go (.blockquote cs p :: parents) cs
  | .list o cs p => go (.list o cs p :: parents) cs
  | .listItem cs p => go (.listItem cs p :: parents) cs
  | .footnoteDefinition cs p => go (.footnoteDefinition cs p :: parents) cs
  | _ => []
where go (parents : List Node) : List Node → List Diagnostic
  | [] => []
  | n :: rest => nhiNode parents n ++ go parents rest

/-- The whole no-heading-indent rule. -/
def remarkLintNoHeadingIndent (tree : Node) : List Diagnostic :=
  nhiNode [] tree

/-- True when no `root` node occurs anywhere in the tree (mdast trees have
the root only at the top). -/
def rootFreeNode : Node → Bool
  | .root _ _ => false
  | .heading _ cs _ => go cs
  | .paragraph cs _ => go cs
  | .blockquote cs _ => go cs
  | .list _ cs _ => go cs
  | .listItem cs _ => go cs
  | .footnoteDefinition cs _ => go cs
  | _ => true
where go : List Node → Bool
  | [] => true
  | n :: rest => rootFreeNode n && go rest

/-! The definition-spacing rule
(src/packages/remark-lint-first-heading-level/index.js, third part). -/

/-- The repeated atoms of the label pattern then the closing bracket:
`(?:\\[\s\S]|[^[\]])+)]` with the regex's backtracking (an escape consumes
the backslash and the next character when some continuation matches,
otherwise the backslash alone matches `[^[\]]`).  Returns the capture and
the input after the `]`; zero atoms are accepted here, the caller rejects
an empty capture.  The first argument is fuel making the recursion
structural; one more than the input length is always enough. -/
def goLabelF : Nat → List Char → Option (List Char × List Char)
  | 0, _ => none
  | _ + 1, [] => none
  | _ + 1, ']' :: rest => some ([], rest)
  | _ + 1, '[' :: _ => none
  | fuel + 1, '\\' :: c :: rest =>
      (match goLabelF fuel rest with
       | some (cap, r) => some ('\\' :: c :: cap, r)
       | none =>
           match goLabelF fuel (c :: rest) with
           | some (cap, r) => some ('\\' :: cap, r)
           | none => none)
  | fuel + 1, c :: rest =>
      (match goLabelF fuel rest with
       | some (cap, r) => some (c :: cap, r)
       | none => none)

/-- The atom-and-close matcher with its fuel filled in. -/
def goLabel (l : List Char) : Option (List Char × List Char) :=
  goLabelF (l.length + 1) l

/-- The label pattern `/^\s*\[((?:\\[\s\S]|[^[\]])+)]/` applied to a
string: `none` models a `null` match result, `some` carries capture
group 1. -/
def labelMatch (s : String) : Option String :=
  match s.data.dropWhile isJsWs with
  | '[' :: rest =>
      match goLabel rest with
      | some (cap, _) => if cap.isEmpty then none else some ⟨cap⟩
      | none => none
  | _ => none

/-- `/[ \t\n]{2,}/.test(...)`: two adjacent characters from the class. -/
def hasConsecutiveWs : List Char → Bool
  | a :: b :: rest =>
      ((a == ' ' || a == '\t' || a == '\n') && (b == ' ' || b == '\t' || b == '\n')) ||
        hasConsecutiveWs (b :: rest)
  | _ => false

/-- The exception raised by dereferencing a `null` match result
(`value.slice(start, end).match(label)[1]`). -/
def nullDeref : String := "TypeError: match result is null"

/-- The visitor body of definition-spacing at one definition or footnote
definition node: skipped when generated; otherwise the sliced source text
must match the label pattern (a failed match throws), and a message is
emitted iff the captured label holds consecutive whitespace. -/
def dsCheck (value : String) (n : Node) : Except String (List Diagnostic) :=
  if generated n then .ok []
  else
    let s := (pointStartOld n).offset
    let e := (pointEndOld n).offset
    match labelMatch (jsSlice value s e) with
    | none => .error nullDeref
    | some cap =>
        .ok (if hasConsecutiveWs cap.data
             then [⟨"Do not use consecutive whitespace in definition labels", pointStartOld n⟩]
             else [])

/-- `visit(tree, ...)` for definition-spacing: pre-order traversal
collecting messages; an exception anywhere aborts the whole run. -/
def dsNode (value : String) : Node → Except String (List Diagnostic)
  | .definition p => dsCheck value (.definition p)
  | .footnoteDefinition cs p => do
      let ds ← dsCheck value (.footnoteDefinition cs p)
      let ds2 ← go cs
      return ds ++ ds2
  | .root cs _ => go cs
  | .heading _ cs _ => go cs
  | .paragraph cs _ => go cs
  | .blockquote cs _ => go cs
  | .list _ cs _ => go cs
  | .listItem cs _ => go cs
  | _ => .ok []
where go : List Node → Except String (List Diagnostic)
  | [] => .ok []
  | n :: rest => do
      let ds ← dsNode value n
      let ds2 ← go rest
      return ds ++ ds2

/-- The whole definition-spacing rule; `value` is `String(file)`. -/
def remarkLintDefinitionSpacing (value : String) (tree : Node) :
    Except String (List Diagnostic) :=
  dsNode value tree

/-! Specification predicates used to state the duplicate-heading claims. -/

/-- An intervening node that cannot disturb a pending duplicate pair of
depth `d` with normalized text `k`: either not a heading, or a heading
no shallower than `d` whose key differs from `k` when it sits at depth
`d` itself. -/
def safeBetween (d : Nat) (k : String) (m : Node) : Bool :=
  match m with
  | .heading dm _ _ =>
      decide (1 ≤ dm) && decide (d ≤ dm) &&
        (decide (dm ≠ d) || !(normalize (nodeToString m) == k))
  | _ => true

/-- An intervening node that cannot reintroduce key `k` at depth `d` after
the scope was discarded: either not a heading, or a heading that is not a
depth-`d` heading with key `k`. -/
def noReintro (d : Nat) (k : String) (m : Node) : Bool :=
  match m with
  | .heading dm _ _ =>
      decide (1 ≤ dm) && (decide (dm ≠ d) || !(normalize (nodeToString m) == k))
  | _ => true

/-- The scope at depth `d` currently maps key `k` to the node `h1`:
visiting a non-generated depth-`d` heading with normalized text `k` in
this state emits a diagnostic citing `h1`. -/
def dupRecorded (d : Nat) (k : String) (h1 : Node) (st : DupState) : Prop :=
  ∃ sc, st.stack.get? (d - 1) = some (some sc) ∧ scopeGet sc k = some h1

/-- The scope at depth `d` (if it exists at all) has no entry for key `k`:
visiting a depth-`d` heading with normalized text `k` in this state emits
nothing. -/
def scopeFree (d : Nat) (k : String) (st : DupState) : Prop :=
  ∀ sc, st.stack.get? (d - 1) = some (some sc) → scopeGet sc k = none

end MdastLint

/-! Concrete evaluations of the embedded rules, following the documented
examples of the source files. -/

section ConcreteEvaluations
open MdastLint
example : normalize "Alpha" = "ALPHA" := by decide
example : nodeToString (.heading 2 [.text "Al" none, .text "pha" none] none) = "Alpha" := rfl
-- not-ok.md from the rule's doc: ## Foxtrot / ### Golf / ### Golf
example :
    remarkLintNoDuplicateHeadingsInSection
      (.root
        [.heading 2 [.text "Foxtrot" none] (some ⟨⟨1,1,0⟩,⟨1,11,10⟩⟩),
         .heading 3 [.text "Golf" none] (some ⟨⟨3,1,12⟩,⟨3,9,20⟩⟩),
         .heading 3 [.text "Golf" none] (some ⟨⟨5,1,22⟩,⟨5,9,30⟩⟩)]
        (some ⟨⟨1,1,0⟩,⟨5,9,30⟩⟩))
      = [⟨"Do not use headings with similar content per section (3:1)", ⟨5,1,22⟩⟩] := by
  decide
-- equal-depth heading intervening: the scope survives, a message IS emitted
example :
    remarkLintNoDuplicateHeadingsInSection
      (.root
        [.heading 2 [.text "Alpha" none] (some ⟨⟨1,1,0⟩,⟨1,9,8⟩⟩),
         .heading 2 [.text "Beta" none] (some ⟨⟨3,1,10⟩,⟨3,8,17⟩⟩),
         .heading 2 [.text "Alpha" none] (some ⟨⟨5,1,19⟩,⟨5,9,27⟩⟩)]
        (some ⟨⟨1,1,0⟩,⟨5,9,27⟩⟩))
      = [⟨"Do not use headings with similar content per section (1:1)", ⟨5,1,19⟩⟩] := by
  decide
-- strictly shallower heading intervening: no message
example :
    remarkLintNoDuplicateHeadingsInSection
      (.root
        [.heading 2 [.text "Alpha" none] (some ⟨⟨1,1,0⟩,⟨1,9,8⟩⟩),
         .heading 1 [.text "Top" none] (some ⟨⟨3,1,10⟩,⟨3,6,15⟩⟩),
         .heading 2 [.text "Alpha" none] (some ⟨⟨5,1,17⟩,⟨5,9,25⟩⟩)]
        (some ⟨⟨1,1,0⟩,⟨5,9,25⟩⟩))
      = [] := by
  decide
-- generated heading gets recorded and cited
example :
    remarkLintNoDuplicateHeadingsInSection
      (.root
        [.heading 2 [.text "Alpha" none] none,
         .heading 2 [.text "Alpha" none] (some ⟨⟨3,1,10⟩,⟨3,9,18⟩⟩)]
        none)
      = [⟨"Do not use headings with similar content per section (1:1)", ⟨3,1,10⟩⟩] := by
  decide
-- first-heading-level: generated heading is skipped, not stopped at
example :
    remarkLintFirstHeadingLevel none
      (.root
        [.heading 1 [] none,
         .heading 2 [.text "T" none] (some ⟨⟨3,1,2⟩,⟨3,5,6⟩⟩)]
        (some ⟨⟨1,1,0⟩,⟨3,5,6⟩⟩))
      = [⟨"First heading level should be `1`", ⟨3,1,2⟩⟩] := by decide
-- html with a non-leading <h2> determines the rank
example : infer "x<h2>y" = some 2 := by decide
example : inferLeading "x<h2>y" = none := by decide
example : infer "<html>" = none := by decide
-- unordered-list-marker-style: non-string option does not fail
example :
    remarkLintUnorderedListMarkerStyle (.num 5) "" (.root [] none) = .ok [] := rfl
example :
    remarkLintUnorderedListMarkerStyle (.str "x") "" (.root [] none)
      = .error "Incorrect unordered list item marker style `x`: use either `'-'`, `'*'`, or `'+'`" := rfl
-- the marker loop over `* Foo / - Bar / + Baz`
example :
    remarkLintUnorderedListMarkerStyle .undefined "* Foo\n- Bar\n+ Baz\n"
      (.root
        [.list false
          [.listItem [.paragraph [.text "Foo" (some ⟨⟨1,3,2⟩,⟨1,6,5⟩⟩)] (some ⟨⟨1,3,2⟩,⟨1,6,5⟩⟩)] (some ⟨⟨1,1,0⟩,⟨1,6,5⟩⟩),
           .listItem [.paragraph [.text "Bar" (some ⟨⟨2,3,8⟩,⟨2,6,11⟩⟩)] (some ⟨⟨2,3,8⟩,⟨2,6,11⟩⟩)] (some ⟨⟨2,1,6⟩,⟨2,6,11⟩⟩),
           .listItem [.paragraph [.text "Baz" (some ⟨⟨3,3,14⟩,⟨3,6,17⟩⟩)] (some ⟨⟨3,3,14⟩,⟨3,6,17⟩⟩)] (some ⟨⟨3,1,12⟩,⟨3,6,17⟩⟩)]
          (some ⟨⟨1,1,0⟩,⟨3,6,17⟩⟩)]
        (some ⟨⟨1,1,0⟩,⟨3,6,17⟩⟩))
      = .ok [⟨"Marker style should be `*`", ⟨2,1,6⟩⟩, ⟨"Marker style should be `*`", ⟨3,1,12⟩⟩] := rfl
-- no-heading-indent: 3 spaces at root, heading in block quote unchecked
example :
    remarkLintNoHeadingIndent
      (.root
        [.heading 1 [.text "Mercury" none] (some ⟨⟨1,4,3⟩,⟨1,13,12⟩⟩),
         .blockquote [.heading 1 [.text "Q" none] (some ⟨⟨3,5,17⟩,⟨3,8,20⟩⟩)] (some ⟨⟨3,1,13⟩,⟨3,8,20⟩⟩)]
        (some ⟨⟨1,1,0⟩,⟨3,8,20⟩⟩))
      = [⟨"Unexpected `3` spaces before heading, expected `0` spaces, remove `3` spaces", ⟨1,4,3⟩⟩] := by
  decide
-- singular wording
example :
    remarkLintNoHeadingIndent
      (.root [.heading 1 [.text "V" none] (some ⟨⟨1,2,1⟩,⟨1,5,4⟩⟩)] (some ⟨⟨1,1,0⟩,⟨1,5,4⟩⟩))
      = [⟨"Unexpected `1` space before heading, expected `0` spaces, remove `1` space", ⟨1,2,1⟩⟩] := by
  decide
-- definition-spacing
example : labelMatch "[example domain]: x" = some "example domain" := by decide
example : labelMatch "[]: x" = none := by decide
example : labelMatch "[a\\]" = some "a\\" := by decide
example :
    remarkLintDefinitionSpacing "[example  domain]: http://x \"T\""
      (.root [.definition (some ⟨⟨1,1,0⟩,⟨1,32,31⟩⟩)] (some ⟨⟨1,1,0⟩,⟨1,32,31⟩⟩))
      = .ok [⟨"Do not use consecutive whitespace in definition labels", ⟨1,1,0⟩⟩] := rfl
example :
    remarkLintDefinitionSpacing "[]: x"
      (.root [.definition (some ⟨⟨1,1,0⟩,⟨1,6,5⟩⟩)] (some ⟨⟨1,1,0⟩,⟨1,6,5⟩⟩))
      = .error nullDeref := rfl
end ConcreteEvaluations

namespace MdastLint

/-- C9.  Every rule of the embedding is a pure function of its tree, raw
source and configuration, because all mutable rule state (the scope stack,
the preferred marker style) is created inside the invocation: running any
of the five rules twice over the same inputs yields two identical ordered
diagnostic sequences. -/
theorem c9_theorem (tree : Node) (value : String) (opt : Option Nat) (jopt : JSValue) :
    remarkLintNoDuplicateHeadingsInSection tree = remarkLintNoDuplicateHeadingsInSection tree
      ∧ remarkLintFirstHeadingLevel opt tree = remarkLintFirstHeadingLevel opt tree
      ∧ remarkLintNoHeadingIndent tree = remarkLintNoHeadingIndent tree
      ∧ remarkLintUnorderedListMarkerStyle jopt value tree
          = remarkLintUnorderedListMarkerStyle jopt value tree
      ∧ remarkLintDefinitionSpacing value tree = remarkLintDefinitionSpacing value tree :=
  ⟨rfl, rfl, rfl, rfl, rfl⟩

end MdastLint

namespace MdastLint

/-! Counterexamples: concrete inputs on which the claims, as stated, fail. -/

/-- C1 counterexample.  Three depth-2 headings Alpha, Beta, Alpha, all
authored: a heading of *equal* depth (Beta) intervenes between the two
identical headings, yet the rule still emits a duplicate diagnostic for
the second Alpha (citing 1:1), contradicting the claim that an intervening
heading of equal-or-shallower depth suppresses the diagnostic. -/
theorem c1_counterexample :
    remarkLintNoDuplicateHeadingsInSection
      (.root
        [.heading 2 [.text "Alpha" none] (some ⟨⟨1, 1, 0⟩, ⟨1, 9, 8⟩⟩),
         .heading 2 [.text "Beta" none] (some ⟨⟨3, 1, 10⟩, ⟨3, 8, 17⟩⟩),
         .heading 2 [.text "Alpha" none] (some ⟨⟨5, 1, 19⟩, ⟨5, 9, 27⟩⟩)]
        (some ⟨⟨1, 1, 0⟩, ⟨5, 9, 27⟩⟩))
      = [⟨"Do not use headings with similar content per section (1:1)", ⟨5, 1, 19⟩⟩] := by
  decide

/-- C2 counterexample.  A *generated* depth-2 heading "Alpha" followed by
an authored depth-2 heading "Alpha": the generated heading's text is
recorded into the scope map and it becomes the cited duplicate (its absent
position prints as 1:1), so the visit is NOT skipped entirely for
generated headings, contradicting the claim. -/
theorem c2_counterexample :
    remarkLintNoDuplicateHeadingsInSection
      (.root
        [.heading 2 [.text "Alpha" none] none,
         .heading 2 [.text "Alpha" none] (some ⟨⟨3, 1, 10⟩, ⟨3, 9, 18⟩⟩)]
        none)
      = [⟨"Do not use headings with similar content per section (1:1)", ⟨3, 1, 10⟩⟩] := by
  decide

/-- C3 counterexample.  The first rank-bearing node in pre-order is a
*generated* depth-1 heading; the claim says traversal stops there (and,
the node being generated, nothing is emitted).  In fact the visitor skips
generated nodes entirely, walks on to the authored depth-2 heading, and
emits a diagnostic for it under the default preferred rank 1. -/
theorem c3_counterexample :
    remarkLintFirstHeadingLevel none
      (.root
        [.heading 1 [] none,
         .heading 2 [.text "T" none] (some ⟨⟨3, 1, 2⟩, ⟨3, 5, 6⟩⟩)]
        (some ⟨⟨1, 1, 0⟩, ⟨3, 5, 6⟩⟩))
      = [⟨"First heading level should be `1`", ⟨3, 1, 2⟩⟩] := by
  decide

/-- C4 counterexample.  An html node whose value contains `<h2` only in a
non-leading position: the claim says it does not determine the first
heading rank, but the unanchored regex `/<h([1-6])/` matches it, the
traversal stops there, and a diagnostic is emitted (preferred rank 1). -/
theorem c4_counterexample :
    remarkLintFirstHeadingLevel none
      (.root [.html "x<h2>y" (some ⟨⟨1, 1, 0⟩, ⟨1, 7, 6⟩⟩)] (some ⟨⟨1, 1, 0⟩, ⟨1, 7, 6⟩⟩))
      = [⟨"First heading level should be `1`", ⟨1, 1, 0⟩⟩]
      ∧ inferLeading "x<h2>y" = none := by
  exact ⟨by decide, by decide⟩

/-- C5 counterexample.  A non-string configuration value (the number 5) is
outside {absent, "consistent", "-", "*", "+"}, yet the rule does not fail
fast: it runs normally (the value is coerced to `undefined`, which the
`styles` table accepts).  The string "undefined" likewise slips through. -/
theorem c5_counterexample :
    remarkLintUnorderedListMarkerStyle (.num 5) "" (.root [] none) = .ok []
      ∧ remarkLintUnorderedListMarkerStyle (.str "undefined") "" (.root [] none) = .ok [] :=
  ⟨rfl, rfl⟩

/-- C6 counterexample.  The fatal error text the code produces wraps each
quoted marker in backticks — use either `'-'`, `'*'`, or `'+'` — and is
therefore not the claimed text, which has no backticks around the quoted
markers. -/
theorem c6_counterexample :
    remarkLintUnorderedListMarkerStyle (.str "x") "" (.root [] none)
        = .error "Incorrect unordered list item marker style `x`: use either `'-'`, `'*'`, or `'+'`"
      ∧ "Incorrect unordered list item marker style `x`: use either `'-'`, `'*'`, or `'+'`"
          ≠ "Incorrect unordered list item marker style `x`: use either '-', '*', or '+'" :=
  ⟨rfl, by decide⟩

end MdastLint

namespace MdastLint

/-! C4 amended: the html rank inference scans the whole value. -/

theorem inferScan_eq_tails (l : List Char) :
    inferScan l = l.tails.findSome? hTagHead := by
  induction l with
  | nil => rfl
  | cons c rest ih =>
      rw [List.tails_cons, List.findSome?_cons]
      show (match hTagHead (c :: rest) with
            | some r => some r
            | none => inferScan rest) = _
      cases hTagHead (c :: rest) with
      | none => simpa using ih
      | some r => rfl

/-- C4 amended.  An html node determines the first heading rank exactly
when its raw value contains an `<h1>`..`<h6>` tag *anywhere* (not only in
leading position): the rank the visitor computes for an html node is the
rank of the leftmost occurrence of the pattern over all suffixes of the
value. -/
theorem c4_theorem (v : String) (p : Option Position) :
    rankOf (.html v p) = inferAnywhere v := by
  show infer v = inferAnywhere v
  unfold infer inferAnywhere
  exact inferScan_eq_tails v.data

end MdastLint

namespace MdastLint

/-! C3 amended: the EXIT-ing traversal selects exactly the first
non-generated rank-bearing node in pre-order. -/

theorem fhlCallback_of_qualifies (p : Nat) (n : Node) (h : qualifies n = true) :
    fhlCallback p n = some (emitFor p n) := by
  unfold qualifies at h
  unfold fhlCallback emitFor
  cases hg : generated n with
  | true => rw [hg] at h; simp at h
  | false =>
      rw [hg] at h
      simp only [Bool.not_false, Bool.true_and] at h
      cases hr : rankOf n with
      | none => rw [hr] at h; simp at h
      | some r => simp

theorem fhlCallback_of_not_qualifies (p : Nat) (n : Node) (h : qualifies n = false) :
    fhlCallback p n = none := by
  unfold qualifies at h
  unfold fhlCallback
  cases hg : generated n with
  | true => simp
  | false =>
      rw [hg] at h
      simp only [Bool.not_false, Bool.true_and] at h
      cases hr : rankOf n with
      | none => simp
      | some r => rw [hr] at h; simp at h

theorem fhlStep_char (p : Nat) (n : Node) (rest : Option (List Diagnostic))
    (restL : List Node) (hrest : rest = ((restL.find? qualifies).map (emitFor p))) :
    fhlStep p n rest = (((n :: restL).find? qualifies).map (emitFor p)) := by
  rw [List.find?_cons]
  cases hq : qualifies n with
  | true =>
      unfold fhlStep
      rw [fhlCallback_of_qualifies p n hq]
      rfl
  | false =>
      unfold fhlStep
      rw [fhlCallback_of_not_qualifies p n hq]
      exact hrest

mutual
theorem fhlVisitNode_eq (p : Nat) (n : Node) :
    fhlVisitNode p n = (((preorderNode n).find? qualifies).map (emitFor p)) := by
  cases n with
  | root cs q => exact fhlStep_char p _ _ _ (fhlVisitGo_eq p cs)
  | heading d cs q => exact fhlStep_char p _ _ _ (fhlVisitGo_eq p cs)
  | paragraph cs q => exact fhlStep_char p _ _ _ (fhlVisitGo_eq p cs)
  | blockquote cs q => exact fhlStep_char p _ _ _ (fhlVisitGo_eq p cs)
  | list o cs q => exact fhlStep_char p _ _ _ (fhlVisitGo_eq p cs)
  | listItem cs q => exact fhlStep_char p _ _ _ (fhlVisitGo_eq p cs)
  | footnoteDefinition cs q => exact fhlStep_char p _ _ _ (fhlVisitGo_eq p cs)
  | text v q => exact fhlStep_char p _ _ _ rfl
  | html v q => exact fhlStep_char p _ _ _ rfl
  | definition q => exact fhlStep_char p _ _ _ rfl
theorem fhlVisitGo_eq (p : Nat) (l : List Node) :
    fhlVisitNode.go p l = (((preorderNode.go l).find? qualifies).map (emitFor p)) := by
  cases l with
  | nil => rfl
  | cons n rest =>
      show (match fhlVisitNode p n with
            | some ds => some ds
            | none => fhlVisitNode.go p rest) = _
      rw [show preorderNode.go (n :: rest) = preorderNode n ++ preorderNode.go rest from rfl]
      rw [List.find?_append]
      rw [fhlVisitNode_eq p n, fhlVisitGo_eq p rest]
      cases (preorderNode n).find? qualifies <;> rfl
end

/-- C3 amended.  For every tree and option, the rule's output is fully
determined by the *first non-generated rank-bearing node* in pre-order:
the traversal EXITs there (so no later rank-bearing node is considered),
and a diagnostic is emitted iff that node's rank differs from the
preferred rank.  Generated nodes — rank-bearing or not — never stop the
traversal and never produce a diagnostic. -/
theorem c3_theorem (opt : Option Nat) (tree : Node) :
    remarkLintFirstHeadingLevel opt tree
      = (match (preorderNode tree).find? qualifies with
         | some n => emitFor (fhlPreferred opt) n
         | none => []) := by
  unfold remarkLintFirstHeadingLevel
  rw [fhlVisitNode_eq (fhlPreferred opt) tree]
  cases (preorderNode tree).find? qualifies <;> rfl

end MdastLint

namespace MdastLint

/-- C5 amended.  The rule fails fast exactly on *string* options outside
{"consistent", "-", "*", "+", "undefined"}; a non-string option (number or
boolean) is coerced to `undefined` by the option normalization and the
rule runs exactly as with no option at all, never producing the fatal
configuration error.  (The string "undefined" also escapes the check,
because the `styles` table's `undefined: true` entry is reachable by the
property name "undefined".) -/
theorem c5_theorem :
    (∀ (s value : String) (tree : Node),
        s ≠ "consistent" → s ≠ "-" → s ≠ "*" → s ≠ "+" → s ≠ "undefined" →
        remarkLintUnorderedListMarkerStyle (.str s) value tree = .error (ulmsFatal (some s)))
      ∧ (∀ (n : Int) (b : Bool) (value : String) (tree : Node),
        remarkLintUnorderedListMarkerStyle (.num n) value tree
            = remarkLintUnorderedListMarkerStyle .undefined value tree
          ∧ remarkLintUnorderedListMarkerStyle (.bool b) value tree
            = remarkLintUnorderedListMarkerStyle .undefined value tree) := by
  constructor
  · intro s value tree h1 h2 h3 h4 h5
    unfold remarkLintUnorderedListMarkerStyle
    simp only [beq_iff_eq, if_neg h1]
    rw [if_neg]
    simp [stylesHas, h2, h3, h4, h5]
  · intro n b value tree
    exact ⟨rfl, rfl⟩

theorem c5_theorem_witness :
    remarkLintUnorderedListMarkerStyle (.str "x") "" (.root [] none) = .error (ulmsFatal (some "x"))
      ∧ remarkLintUnorderedListMarkerStyle (.num 5) "" (.root [] none)
          = remarkLintUnorderedListMarkerStyle .undefined "" (.root [] none) :=
  ⟨c5_theorem.1 "x" "" (.root [] none) (by decide) (by decide) (by decide) (by decide) (by decide),
   (c5_theorem.2 5 true "" (.root [] none)).1⟩

/-- C6 amended.  When the rule does fail fast on an invalid string option
`v`, the fatal error text is exactly
"Incorrect unordered list item marker style \`<v>\`: use either \`'-'\`,
\`'*'\`, or \`'+'\`" — each quoted marker is additionally wrapped in
backticks, unlike the claimed text. -/
theorem c6_theorem (s value : String) (tree : Node)
    (h1 : s ≠ "consistent") (h2 : stylesHas (some s) = false) :
    remarkLintUnorderedListMarkerStyle (.str s) value tree
      = .error ("Incorrect unordered list item marker style `" ++ s ++
          "`: use either `'-'`, `'*'`, or `'+'`") := by
  unfold remarkLintUnorderedListMarkerStyle
  simp only [beq_iff_eq, if_neg h1]
  rw [if_neg (by rw [h2]; exact Bool.false_ne_true)]
  rfl

theorem c6_theorem_witness :
    remarkLintUnorderedListMarkerStyle (.str "💩") "" (.root [] none)
      = .error ("Incorrect unordered list item marker style `" ++ "💩" ++
          "`: use either `'-'`, `'*'`, or `'+'`") :=
  c6_theorem "💩" "" (.root [] none) (by decide) (by decide)

/-- C10.  At a non-generated definition node the sliced source text is fed
to the label pattern and the match result is dereferenced unguarded: when
the slice does not match (e.g. an empty label) the rule throws instead of
skipping the node, and when it matches, the consecutive-whitespace test on
the captured label decides the diagnostic — the check is total only under
that precondition. -/
theorem c10_theorem (value : String) (p : Position)
    (hgen : generated (Node.definition (some p)) = false) :
    (labelMatch (jsSlice value p.start.offset p.stop.offset) = none →
        remarkLintDefinitionSpacing value (.definition (some p)) = .error nullDeref)
      ∧ (∀ cap, labelMatch (jsSlice value p.start.offset p.stop.offset) = some cap →
        remarkLintDefinitionSpacing value (.definition (some p))
          = .ok (if hasConsecutiveWs cap.data
                 then [⟨"Do not use consecutive whitespace in definition labels", p.start⟩]
                 else [])) := by
  constructor
  · intro hm
    show dsCheck value (.definition (some p)) = .error nullDeref
    unfold dsCheck
    rw [if_neg (by rw [hgen]; exact Bool.false_ne_true)]
    show (match labelMatch (jsSlice value p.start.offset p.stop.offset) with
          | none => Except.error nullDeref
          | some cap => _) = _
    rw [hm]
  · intro cap hm
    show dsCheck value (.definition (some p)) = _
    unfold dsCheck
    rw [if_neg (by rw [hgen]; exact Bool.false_ne_true)]
    show (match labelMatch (jsSlice value p.start.offset p.stop.offset) with
          | none => Except.error nullDeref
          | some cap => Except.ok (if hasConsecutiveWs cap.data then _ else [])) = _
    rw [hm]
    rfl

theorem c10_theorem_witness :
    remarkLintDefinitionSpacing "[]: x" (.definition (some ⟨⟨1, 1, 0⟩, ⟨1, 6, 5⟩⟩))
      = .error nullDeref :=
  ( c10_theorem "[]: x" ⟨⟨1, 1, 0⟩, ⟨1, 6, 5⟩⟩ (by decide)).1 (by decide)

end MdastLint

namespace MdastLint

/-! C7: the indentation check fires exactly for headings directly in the
document root. -/

theorem nhiCheck_nonroot (parents : List Node) (q n : Node)
    (hh : parents.head? = some q) (hq : q.isRoot = false) :
    nhiCheck parents n = [] := by
  unfold nhiCheck
  rw [hh]
  cases pointStartNew n with
  | none => rfl
  | some pt => simp [hq]

mutual
theorem nhiNode_silent (n : Node) (hfree : rootFreeNode n = true)
    (q : Node) (ps : List Node) (hq : q.isRoot = false) :
    nhiNode (q :: ps) n = [] := by
  cases n with
  | root cs p => exact absurd hfree (by simp [rootFreeNode])
  | heading d cs p =>
      show nhiCheck (q :: ps) (.heading d cs p) ++
          nhiNode.go (.heading d cs p :: q :: ps) cs = []
      rw [nhiCheck_nonroot (q :: ps) q _ rfl hq,
        nhiGo_silent cs hfree (.heading d cs p) (q :: ps) rfl]
      rfl
  | paragraph cs p => exact nhiGo_silent cs hfree (.paragraph cs p) (q :: ps) rfl
  | blockquote cs p => exact nhiGo_silent cs hfree (.blockquote cs p) (q :: ps) rfl
  | list o cs p => exact nhiGo_silent cs hfree (.list o cs p) (q :: ps) rfl
  | listItem cs p => exact nhiGo_silent cs hfree (.listItem cs p) (q :: ps) rfl
  | footnoteDefinition cs p =>
      exact nhiGo_silent cs hfree (.footnoteDefinition cs p) (q :: ps) rfl
  | text v p => rfl
  | html v p => rfl
  | definition p => rfl
theorem nhiGo_silent (l : List Node) (hfree : rootFreeNode.go l = true)
    (q : Node) (ps : List Node) (hq : q.isRoot = false) :
    nhiNode.go (q :: ps) l = [] := by
  cases l with
  | nil => rfl
  | cons n rest =>
      have h2 := (Bool.and_eq_true _ _).mp hfree
      show nhiNode (q :: ps) n ++ nhiNode.go (q :: ps) rest = []
      rw [nhiNode_silent n h2.1 q ps hq, nhiGo_silent rest h2.2 q ps hq]
      rfl
end

theorem nhiNode_top (n : Node) (hfree : rootFreeNode n = true) (ps : List Node) :
    nhiNode ps n = if n.isHeading then nhiCheck ps n else [] := by
  cases n with
  | root cs p => exact absurd hfree (by simp [rootFreeNode])
  | heading d cs p =>
      show nhiCheck ps (.heading d cs p) ++
          nhiNode.go (.heading d cs p :: ps) cs = _
      rw [nhiGo_silent cs hfree (.heading d cs p) ps rfl]
      simp [Node.isHeading]
  | paragraph cs p => exact nhiGo_silent cs hfree (.paragraph cs p) ps rfl
  | blockquote cs p => exact nhiGo_silent cs hfree (.blockquote cs p) ps rfl
  | list o cs p => exact nhiGo_silent cs hfree (.list o cs p) ps rfl
  | listItem cs p => exact nhiGo_silent cs hfree (.listItem cs p) ps rfl
  | footnoteDefinition cs p =>
      exact nhiGo_silent cs hfree (.footnoteDefinition cs p) ps rfl
  | text v p => rfl
  | html v p => rfl
  | definition p => rfl

theorem nhiGo_flat (l : List Node) (hfree : rootFreeNode.go l = true) (ps : List Node) :
    nhiNode.go ps l = l.flatMap (fun c => if c.isHeading then nhiCheck ps c else []) := by
  induction l with
  | nil => rfl
  | cons n rest ih =>
      have h2 := (Bool.and_eq_true _ _).mp hfree
      show nhiNode ps n ++ nhiNode.go ps rest = _
      rw [nhiNode_top n h2.1 ps, ih h2.2, List.flatMap_cons]

/-- C7.  (i) On a root tree without nested root nodes, the rule's output
is exactly the concatenation, over the root's direct children, of the
per-heading check with the root as parent — headings anywhere deeper
contribute nothing.  (ii) For a heading with a defined start point whose
immediate parent is the root, the check emits exactly one diagnostic
reporting `column - 1` spaces to remove (with singular/plural wording)
iff `column - 1` is nonzero.  (iii) Under a non-root parent (e.g. inside
a block quote) the check never emits, regardless of indentation. -/
theorem c7_theorem :
    (∀ (cs : List Node) (rp : Option Position), rootFreeNode.go cs = true →
        remarkLintNoHeadingIndent (.root cs rp)
          = cs.flatMap (fun c => if c.isHeading then nhiCheck [.root cs rp] c else []))
      ∧ (∀ (parents : List Node) (q : Node) (d : Nat) (hcs : List Node) (pos : Position),
        parents.head? = some q → q.isRoot = true →
        pos.start.line ≠ 0 → pos.start.column ≠ 0 →
        nhiCheck parents (.heading d hcs (some pos))
          = (if pos.start.column - 1 = 0 then []
             else [⟨"Unexpected `" ++ Nat.repr (pos.start.column - 1) ++ "` " ++
                     (if pos.start.column - 1 = 1 then "space" else "spaces") ++
                     " before heading, expected `0` spaces, remove `" ++
                     Nat.repr (pos.start.column - 1) ++ "` " ++
                     (if pos.start.column - 1 = 1 then "space" else "spaces"),
                   pos.start⟩]))
      ∧ (∀ (parents : List Node) (q n : Node),
        parents.head? = some q → q.isRoot = false → nhiCheck parents n = []) := by
  refine ⟨?_, ?_, ?_⟩
  · intro cs rp hfree
    show nhiNode.go (.root cs rp :: []) cs = _
    exact nhiGo_flat cs hfree [.root cs rp]
  · intro parents q d hcs pos hh hq hl hc
    have hpt : pointStartNew (.heading d hcs (some pos)) = some pos.start := by
      unfold pointStartNew
      show (if pos.start.line ≠ 0 ∧ pos.start.column ≠ 0 then some pos.start else none) = _
      rw [if_pos ⟨hl, hc⟩]
    unfold nhiCheck
    rw [hpt, hh]
    show (if q.isRoot then _ else []) = _
    rw [if_pos (by rw [hq])]
    by_cases hz : pos.start.column - 1 = 0
    · rw [if_neg (by simpa using hz), if_pos hz]
    · rw [if_pos hz, if_neg hz]
      unfold pluralizeWord
      by_cases h1 : pos.start.column - 1 = 1
      · rw [if_pos (by simp [h1]), if_pos h1]
      · rw [if_neg (by simpa using h1), if_neg h1]
        rfl
  · exact fun parents q n hh hq => nhiCheck_nonroot parents q n hh hq

theorem c7_theorem_witness :
    remarkLintNoHeadingIndent
        (.root
          [.heading 1 [.text "Mercury" none] (some ⟨⟨1, 4, 3⟩, ⟨1, 13, 12⟩⟩),
           .blockquote [.heading 1 [.text "Q" none] (some ⟨⟨3, 5, 17⟩, ⟨3, 8, 20⟩⟩)]
             (some ⟨⟨3, 1, 13⟩, ⟨3, 8, 20⟩⟩)]
          (some ⟨⟨1, 1, 0⟩, ⟨3, 8, 20⟩⟩))
        = [.heading 1 [.text "Mercury" none] (some ⟨⟨1, 4, 3⟩, ⟨1, 13, 12⟩⟩),
           .blockquote [.heading 1 [.text "Q" none] (some ⟨⟨3, 5, 17⟩, ⟨3, 8, 20⟩⟩)]
             (some ⟨⟨3, 1, 13⟩, ⟨3, 8, 20⟩⟩)].flatMap
            (fun c => if c.isHeading
             then nhiCheck
               [.root
                 [.heading 1 [.text "Mercury" none] (some ⟨⟨1, 4, 3⟩, ⟨1, 13, 12⟩⟩),
                  .blockquote [.heading 1 [.text "Q" none] (some ⟨⟨3, 5, 17⟩, ⟨3, 8, 20⟩⟩)]
                    (some ⟨⟨3, 1, 13⟩, ⟨3, 8, 20⟩⟩)]
                 (some ⟨⟨1, 1, 0⟩, ⟨3, 8, 20⟩⟩)] c
             else [])
      ∧ nhiCheck [.root [] none] (.heading 1 [] (some ⟨⟨1, 4, 3⟩, ⟨1, 13, 12⟩⟩))
          = [⟨"Unexpected `" ++ Nat.repr 3 ++ "` " ++ "spaces" ++
                " before heading, expected `0` spaces, remove `" ++ Nat.repr 3 ++ "` " ++ "spaces",
              ⟨1, 4, 3⟩⟩]
      ∧ nhiCheck [.blockquote [] none] (.heading 1 [] (some ⟨⟨3, 5, 17⟩, ⟨3, 8, 20⟩⟩)) = [] :=
  ⟨c7_theorem.1 _ _ (by decide),
   by
     have h := c7_theorem.2.1 [.root [] none] (.root [] none) 1 []
       ⟨⟨1, 4, 3⟩, ⟨1, 13, 12⟩⟩ rfl rfl (by decide) (by decide)
     simpa using h,
   c7_theorem.2.2 [.blockquote [] none] (.blockquote [] none)
     (.heading 1 [] (some ⟨⟨3, 5, 17⟩, ⟨3, 8, 20⟩⟩)) rfl rfl⟩

end MdastLint

namespace MdastLint

/-! Scope-map and stack lemmas for the duplicate-heading rule. -/

theorem scopeGet_scopeSet_self (sc : Scope) (k : String) (n : Node) :
    scopeGet (scopeSet sc k n) k = some n := by
  induction sc with
  | nil => simp [scopeSet, scopeGet]
  | cons p rest ih =>
      obtain ⟨k2, n2⟩ := p
      unfold scopeSet
      by_cases h : (k2 == k) = true
      · rw [if_pos h]; simp [scopeGet]
      · rw [if_neg h]; unfold scopeGet; rw [if_neg h]; exact ih

theorem scopeGet_scopeSet_other (sc : Scope) (k k2 : String) (n : Node) (h : ¬ k2 = k) :
    scopeGet (scopeSet sc k2 n) k = scopeGet sc k := by
  induction sc with
  | nil => simp [scopeSet, scopeGet, h]
  | cons p rest ih =>
      obtain ⟨k3, n3⟩ := p
      unfold scopeSet
      by_cases h3 : (k3 == k2) = true
      · rw [if_pos h3]
        have hk3 : k3 = k2 := by simpa using h3
        unfold scopeGet
        rw [if_neg (by simp [h]), if_neg (by simp [hk3, h])]
      · rw [if_neg h3]
        unfold scopeGet
        by_cases h4 : (k3 == k) = true
        · rw [if_pos h4, if_pos h4]
        · rw [if_neg h4, if_neg h4]; exact ih

theorem length_padTo (st : Stack) (n : Nat) : (padTo st n).length = max st.length n := by
  unfold padTo
  rw [List.length_append, List.length_replicate]
  omega

theorem stackSet_get_self (st : Stack) (i : Nat) (sc : Scope) :
    (stackSet st i sc).get? i = some (some sc) := by
  unfold stackSet
  exact List.get?_set_eq_of_lt _ (by rw [length_padTo]; omega)

theorem stackSet_get_preserve (st : Stack) (i j : Nat) (sc : Scope) (x : Option Scope)
    (hne : j ≠ i) (hj : st.get? j = some x) :
    (stackSet st i sc).get? j = some x := by
  unfold stackSet
  rw [List.get?_set_ne _ _ (by omega : i ≠ j)]
  have hlt : j < st.length := by
    by_contra hge
    rw [List.get?_eq_none.mpr (by omega)] at hj
    exact Option.noConfusion hj
  unfold padTo
  rw [List.get?_eq_getElem?, List.getElem?_append_left hlt, ← List.get?_eq_getElem?]
  exact hj

theorem stackSet_get_rev (st : Stack) (i j : Nat) (sc sc2 : Scope)
    (hne : j ≠ i) (hj : (stackSet st i sc).get? j = some (some sc2)) :
    st.get? j = some (some sc2) := by
  unfold stackSet at hj
  rw [List.get?_set_ne _ _ (by omega : i ≠ j)] at hj
  by_cases hlt : j < st.length
  · unfold padTo at hj
    rw [List.get?_eq_getElem?, List.getElem?_append_left hlt, ← List.get?_eq_getElem?] at hj
    exact hj
  · exfalso
    unfold padTo at hj
    rw [List.get?_eq_getElem?, List.getElem?_append_right (by omega), List.getElem?_replicate] at hj
    by_cases h2 : j - st.length < i + 1 - st.length
    · rw [if_pos h2] at hj
      exact Option.noConfusion (Option.some.inj hj)
    · rw [if_neg h2] at hj
      exact Option.noConfusion hj

theorem get?_take_rev (l : Stack) (n j : Nat) (x : Option Scope)
    (h : (l.take n).get? j = some x) : l.get? j = some x := by
  by_cases hlt : j < n
  · rwa [List.get?_take hlt] at h
  · exfalso
    rw [List.get?_eq_none.mpr (by rw [List.length_take]; omega)] at h
    exact Option.noConfusion h

theorem scopeAt_of_get (st : Stack) (i : Nat) (sc : Scope)
    (h : st.get? i = some (some sc)) : scopeAt st i = sc := by
  unfold scopeAt
  rw [h]

theorem scopeAt_free (d : Nat) (k : String) (st : DupState) (h : scopeFree d k st) :
    scopeGet (scopeAt st.stack (d - 1)) k = none := by
  unfold scopeAt
  cases hget : st.stack.get? (d - 1) with
  | none => rfl
  | some osc =>
      cases osc with
      | none => rfl
      | some sc0 => exact h sc0 hget

end MdastLint

namespace MdastLint

/-! The duplicate-heading state invariants across a traversal. -/

/-- Visiting a depth-`d` heading records it under its own key at index
`d - 1`, whether or not the heading is generated. -/
theorem dupRecorded_establish (st : DupState) (d : Nat) (cs : List Node) (p : Option Position)
    (hd : 1 ≤ d) (k : String) (hk : normalize (nodeToString (Node.heading d cs p)) = k) :
    dupRecorded d k (.heading d cs p) (dupVisit st (.heading d cs p)) := by
  refine ⟨scopeSet (scopeAt st.stack (d - 1)) k (.heading d cs p), ?_, ?_⟩
  · show ((stackSet st.stack (d - 1)
        (scopeSet (scopeAt st.stack (d - 1)) (normalize (nodeToString (.heading d cs p)))
          (.heading d cs p))).take d).get? (d - 1) = _
    rw [hk, List.get?_take (by omega), stackSet_get_self]
  · exact scopeGet_scopeSet_self _ k _

theorem dupRecorded_preserve (d : Nat) (k : String) (h1 : Node) (st : DupState) (m : Node)
    (hd : 1 ≤ d) (hm : safeBetween d k m = true) (hinv : dupRecorded d k h1 st) :
    dupRecorded d k h1 (dupVisit st m) := by
  obtain ⟨sc, hsc, hk⟩ := hinv
  cases m with
  | heading dm cs p =>
      simp only [safeBetween, Bool.and_eq_true, Bool.or_eq_true, decide_eq_true_eq,
        Bool.not_eq_true', beq_eq_false_iff_ne] at hm
      obtain ⟨⟨h1dm, hdle⟩, hkey⟩ := hm
      by_cases hdm : dm = d
      · subst hdm
        have hkne : ¬ normalize (nodeToString (.heading dm cs p)) = k :=
          hkey.resolve_left (by simp)
        refine ⟨scopeSet (scopeAt st.stack (dm - 1))
          (normalize (nodeToString (.heading dm cs p))) (.heading dm cs p), ?_, ?_⟩
        · show ((stackSet st.stack (dm - 1) _).take dm).get? (dm - 1) = _
          rw [List.get?_take (by omega), stackSet_get_self]
        · rw [scopeGet_scopeSet_other _ _ _ _ hkne, scopeAt_of_get st.stack (dm - 1) sc hsc]
          exact hk
      · refine ⟨sc, ?_, hk⟩
        show ((stackSet st.stack (dm - 1) _).take dm).get? (d - 1) = some (some sc)
        rw [List.get?_take (by omega)]
        exact stackSet_get_preserve st.stack (dm - 1) (d - 1) _ _ (by omega) hsc
  | root cs p => exact ⟨sc, hsc, hk⟩
  | text v p => exact ⟨sc, hsc, hk⟩
  | html v p => exact ⟨sc, hsc, hk⟩
  | paragraph cs p => exact ⟨sc, hsc, hk⟩
  | blockquote cs p => exact ⟨sc, hsc, hk⟩
  | list o cs p => exact ⟨sc, hsc, hk⟩
  | listItem cs p => exact ⟨sc, hsc, hk⟩
  | definition p => exact ⟨sc, hsc, hk⟩
  | footnoteDefinition cs p => exact ⟨sc, hsc, hk⟩

theorem dupRecorded_foldl (d : Nat) (k : String) (h1 : Node) (hd : 1 ≤ d)
    (mid : List Node) (hmid : ∀ m ∈ mid, safeBetween d k m = true)
    (st : DupState) (hinv : dupRecorded d k h1 st) :
    dupRecorded d k h1 (mid.foldl dupVisit st) := by
  induction mid generalizing st with
  | nil => exact hinv
  | cons m rest ih =>
      exact ih (fun x hx => hmid x (List.mem_cons_of_mem m hx)) (dupVisit st m)
        (dupRecorded_preserve d k h1 st m hd (hmid m (List.mem_cons_self m rest)) hinv)

/-- Visiting a non-generated depth-`d` heading with key `k` while `k` maps
to `h1` emits exactly one diagnostic, citing `h1`'s start position. -/
theorem dupVisit_fire (st : DupState) (d : Nat) (k : String) (h1 : Node)
    (c2 : List Node) (p2 : Option Position) (hd : 1 ≤ d)
    (hk2 : normalize (nodeToString (.heading d c2 p2)) = k)
    (hgen : generated (.heading d c2 p2) = false)
    (hinv : dupRecorded d k h1 st) :
    (dupVisit st (.heading d c2 p2)).diags
      = st.diags ++ [dupDiag (.heading d c2 p2) h1] := by
  obtain ⟨sc, hsc, hk⟩ := hinv
  show (match scopeGet (scopeAt st.stack (d - 1)) (normalize (nodeToString (.heading d c2 p2))) with
        | some dup =>
            if generated (.heading d c2 p2) then st.diags
            else st.diags ++ [dupDiag (.heading d c2 p2) dup]
        | none => st.diags) = _
  rw [hk2, scopeAt_of_get st.stack (d - 1) sc hsc, hk]
  show (if generated (.heading d c2 p2) then st.diags
        else st.diags ++ [dupDiag (.heading d c2 p2) h1]) = _
  rw [hgen]
  rfl

/-- Visiting a heading of depth `ds < d` truncates the stack below index
`d - 1`: afterwards no scope exists there. -/
theorem scopeFree_establish (st : DupState) (ds : Nat) (cs : List Node) (ps : Option Position)
    (d : Nat) (k : String) (hds : 1 ≤ ds) (hlt : ds < d) :
    scopeFree d k (dupVisit st (.heading ds cs ps)) := by
  intro sc hsc
  exfalso
  have hsc2 : ((stackSet st.stack (ds - 1) _).take ds).get? (d - 1) = some (some sc) := hsc
  rw [List.get?_eq_none.mpr (by rw [List.length_take]; omega)] at hsc2
  exact Option.noConfusion hsc2

theorem scopeFree_preserve (d : Nat) (k : String) (st : DupState) (m : Node)
    (hd : 1 ≤ d) (hm : noReintro d k m = true) (hinv : scopeFree d k st) :
    scopeFree d k (dupVisit st m) := by
  cases m with
  | heading dm cs p =>
      simp only [noReintro, Bool.and_eq_true, Bool.or_eq_true, decide_eq_true_eq,
        Bool.not_eq_true', beq_eq_false_iff_ne] at hm
      obtain ⟨h1dm, hkey⟩ := hm
      intro sc hsc
      have hsc2 := get?_take_rev _ _ _ _ hsc
      by_cases hdm : dm = d
      · subst hdm
        rw [stackSet_get_self] at hsc2
        have hkne : ¬ normalize (nodeToString (.heading dm cs p)) = k :=
          hkey.resolve_left (by simp)
        obtain rfl := (Option.some.inj (Option.some.inj hsc2)).symm
        rw [scopeGet_scopeSet_other _ _ _ _ hkne]
        exact scopeAt_free dm k st hinv
      · exact hinv sc (stackSet_get_rev st.stack (dm - 1) (d - 1) _ sc (by omega) hsc2)
  | root cs p => exact hinv
  | text v p => exact hinv
  | html v p => exact hinv
  | paragraph cs p => exact hinv
  | blockquote cs p => exact hinv
  | list o cs p => exact hinv
  | listItem cs p => exact hinv
  | definition p => exact hinv
  | footnoteDefinition cs p => exact hinv

theorem scopeFree_foldl (d : Nat) (k : String) (hd : 1 ≤ d)
    (mid : List Node) (hmid : ∀ m ∈ mid, noReintro d k m = true)
    (st : DupState) (hinv : scopeFree d k st) :
    scopeFree d k (mid.foldl dupVisit st) := by
  induction mid generalizing st with
  | nil => exact hinv
  | cons m rest ih =>
      exact ih (fun x hx => hmid x (List.mem_cons_of_mem m hx)) (dupVisit st m)
        (scopeFree_preserve d k st m hd (hmid m (List.mem_cons_self m rest)) hinv)

/-- Visiting a depth-`d` heading with key `k` while no scope entry for `k`
exists emits nothing. -/
theorem dupVisit_nofire (st : DupState) (d : Nat) (k : String)
    (c2 : List Node) (p2 : Option Position) (hd : 1 ≤ d)
    (hk2 : normalize (nodeToString (.heading d c2 p2)) = k)
    (hinv : scopeFree d k st) :
    (dupVisit st (.heading d c2 p2)).diags = st.diags := by
  show (match scopeGet (scopeAt st.stack (d - 1)) (normalize (nodeToString (.heading d c2 p2))) with
        | some dup =>
            if generated (.heading d c2 p2) then st.diags
            else st.diags ++ [dupDiag (.heading d c2 p2) dup]
        | none => st.diags) = _
  rw [hk2, scopeAt_free d k st hinv]

end MdastLint

namespace MdastLint

/-- C1 amended.  Over the document-order heading sequence
`pre ++ [h1] ++ mid ++ [h2]` with `h1`, `h2` of equal depth `d` and equal
normalized text `k`, `h2` not generated: (i) if every intervening node is
a heading of depth `≥ d` and no intervening depth-`d` heading repeats `k`
(in particular, an intervening heading of *equal* depth with different
text does not suppress the check), then visiting `h2` emits exactly one
duplicate diagnostic citing `h1`'s start position; (ii) if a *strictly
shallower* heading intervenes and no depth-`d` heading with key `k`
follows it before `h2`, then visiting `h2` emits nothing. -/
theorem c1_theorem :
    (∀ (d : Nat) (k : String) (pre mid : List Node) (c1 c2 : List Node)
        (p1 p2 : Option Position),
        1 ≤ d →
        normalize (nodeToString (Node.heading d c1 p1)) = k →
        normalize (nodeToString (Node.heading d c2 p2)) = k →
        generated (Node.heading d c2 p2) = false →
        (∀ m ∈ mid, safeBetween d k m = true) →
        (dupRun (pre ++ Node.heading d c1 p1 :: mid ++ [Node.heading d c2 p2])).diags
          = (dupRun (pre ++ Node.heading d c1 p1 :: mid)).diags
              ++ [dupDiag (Node.heading d c2 p2) (Node.heading d c1 p1)])
      ∧ (∀ (d ds : Nat) (k : String) (pre mid2 : List Node) (cs c2 : List Node)
        (ps p2 : Option Position),
        1 ≤ ds → ds < d →
        normalize (nodeToString (Node.heading d c2 p2)) = k →
        (∀ m ∈ mid2, noReintro d k m = true) →
        (dupRun (pre ++ Node.heading ds cs ps :: mid2 ++ [Node.heading d c2 p2])).diags
          = (dupRun (pre ++ Node.heading ds cs ps :: mid2)).diags) := by
  constructor
  · intro d k pre mid c1 c2 p1 p2 hd hk1 hk2 hgen hmid
    have hd1 : 1 ≤ d := hd
    have hsplit : dupRun ((pre ++ Node.heading d c1 p1 :: mid) ++ [Node.heading d c2 p2])
        = dupVisit (dupRun (pre ++ Node.heading d c1 p1 :: mid)) (Node.heading d c2 p2) := by
      unfold dupRun
      rw [List.foldl_append]
      rfl
    rw [hsplit]
    have hrunmid : dupRun (pre ++ Node.heading d c1 p1 :: mid)
        = mid.foldl dupVisit
            (dupVisit (pre.foldl dupVisit ⟨[], []⟩) (Node.heading d c1 p1)) := by
      unfold dupRun
      rw [List.foldl_append]
      rfl
    have hinv : dupRecorded d k (Node.heading d c1 p1)
        (dupRun (pre ++ Node.heading d c1 p1 :: mid)) := by
      rw [hrunmid]
      exact dupRecorded_foldl d k _ hd mid hmid _
        (dupRecorded_establish (pre.foldl dupVisit ⟨[], []⟩) d c1 p1 hd k hk1)
    exact dupVisit_fire _ d k _ c2 p2 hd hk2 hgen hinv
  · intro d ds k pre mid2 cs c2 ps p2 hds hlt hk2 hmid
    have hsplit : dupRun ((pre ++ Node.heading ds cs ps :: mid2) ++ [Node.heading d c2 p2])
        = dupVisit (dupRun (pre ++ Node.heading ds cs ps :: mid2)) (Node.heading d c2 p2) := by
      unfold dupRun
      rw [List.foldl_append]
      rfl
    rw [hsplit]
    have hrunmid : dupRun (pre ++ Node.heading ds cs ps :: mid2)
        = mid2.foldl dupVisit
            (dupVisit (pre.foldl dupVisit ⟨[], []⟩) (Node.heading ds cs ps)) := by
      unfold dupRun
      rw [List.foldl_append]
      rfl
    have hinv : scopeFree d k (dupRun (pre ++ Node.heading ds cs ps :: mid2)) := by
      rw [hrunmid]
      exact scopeFree_foldl d k (by omega) mid2 hmid _
        (scopeFree_establish (pre.foldl dupVisit ⟨[], []⟩) ds cs ps d k hds hlt)
    exact dupVisit_nofire _ d k c2 p2 (by omega) hk2 hinv

theorem c1_theorem_witness :
    (dupRun
        [Node.heading 2 [.text "Alpha" none] (some ⟨⟨1, 1, 0⟩, ⟨1, 9, 8⟩⟩),
         Node.heading 2 [.text "Beta" none] (some ⟨⟨3, 1, 10⟩, ⟨3, 8, 17⟩⟩),
         Node.heading 2 [.text "Alpha" none] (some ⟨⟨5, 1, 19⟩, ⟨5, 9, 27⟩⟩)]).diags
      = (dupRun
          [Node.heading 2 [.text "Alpha" none] (some ⟨⟨1, 1, 0⟩, ⟨1, 9, 8⟩⟩),
           Node.heading 2 [.text "Beta" none] (some ⟨⟨3, 1, 10⟩, ⟨3, 8, 17⟩⟩)]).diags
          ++ [dupDiag (Node.heading 2 [.text "Alpha" none] (some ⟨⟨5, 1, 19⟩, ⟨5, 9, 27⟩⟩))
                (Node.heading 2 [.text "Alpha" none] (some ⟨⟨1, 1, 0⟩, ⟨1, 9, 8⟩⟩))]
      ∧ (dupRun
          [Node.heading 2 [.text "Alpha" none] (some ⟨⟨1, 1, 0⟩, ⟨1, 9, 8⟩⟩),
           Node.heading 1 [.text "Top" none] (some ⟨⟨3, 1, 10⟩, ⟨3, 6, 15⟩⟩),
           Node.heading 2 [.text "Alpha" none] (some ⟨⟨5, 1, 17⟩, ⟨5, 9, 25⟩⟩)]).diags
        = (dupRun
            [Node.heading 2 [.text "Alpha" none] (some ⟨⟨1, 1, 0⟩, ⟨1, 9, 8⟩⟩),
             Node.heading 1 [.text "Top" none] (some ⟨⟨3, 1, 10⟩, ⟨3, 6, 15⟩⟩)]).diags :=
  ⟨c1_theorem.1 2 "ALPHA" []
      [Node.heading 2 [.text "Beta" none] (some ⟨⟨3, 1, 10⟩, ⟨3, 8, 17⟩⟩)]
      [.text "Alpha" none] [.text "Alpha" none]
      (some ⟨⟨1, 1, 0⟩, ⟨1, 9, 8⟩⟩) (some ⟨⟨5, 1, 19⟩, ⟨5, 9, 27⟩⟩)
      (by decide) (by decide) (by decide) (by decide) (by decide),
   c1_theorem.2 2 1 "ALPHA" []
      [] [.text "Top" none] [.text "Alpha" none]
      (some ⟨⟨3, 1, 10⟩, ⟨3, 6, 15⟩⟩) (some ⟨⟨5, 1, 17⟩, ⟨5, 9, 25⟩⟩)
      (by decide) (by decide) (by decide) (by decide)⟩

/-- C2 amended.  Generated headings are *not* skipped entirely: only the
diagnostic for the current heading is suppressed when that heading is
generated; the visit still records every heading — generated or not —
into the depth-indexed scope map under its normalized text, so a
generated heading can become the cited duplicate of a later authored
heading (see the counterexample). -/
theorem c2_theorem :
    (∀ (st : DupState) (n : Node), generated n = true → (dupVisit st n).diags = st.diags)
      ∧ (∀ (st : DupState) (d : Nat) (cs : List Node) (p : Option Position), 1 ≤ d →
        dupRecorded d (normalize (nodeToString (Node.heading d cs p))) (Node.heading d cs p)
          (dupVisit st (Node.heading d cs p))) := by
  constructor
  · intro st n hgen
    cases n with
    | heading d cs p =>
        show (match scopeGet (scopeAt st.stack (d - 1))
              (normalize (nodeToString (.heading d cs p))) with
              | some dup =>
                  if generated (.heading d cs p) then st.diags
                  else st.diags ++ [dupDiag (.heading d cs p) dup]
              | none => st.diags) = _
        cases scopeGet (scopeAt st.stack (d - 1))
            (normalize (nodeToString (.heading d cs p))) with
        | none => rfl
        | some dup => rw [hgen]; rfl
    | root cs p => rfl
    | text v p => rfl
    | html v p => rfl
    | paragraph cs p => rfl
    | blockquote cs p => rfl
    | list o cs p => rfl
    | listItem cs p => rfl
    | definition p => rfl
    | footnoteDefinition cs p => rfl
  · intro st d cs p hd
    exact dupRecorded_establish st d cs p hd _ rfl

theorem c2_theorem_witness :
    (dupVisit ⟨[], []⟩ (Node.heading 2 [.text "Alpha" none] none)).diags
        = (⟨[], []⟩ : DupState).diags
      ∧ dupRecorded 2 (normalize (nodeToString (Node.heading 2 [.text "Alpha" none] none)))
          (Node.heading 2 [.text "Alpha" none] none)
          (dupVisit ⟨[], []⟩ (Node.heading 2 [.text "Alpha" none] none)) :=
  ⟨c2_theorem.1 ⟨[], []⟩ (Node.heading 2 [.text "Alpha" none] none) (by decide),
   c2_theorem.2 ⟨[], []⟩ 2 [.text "Alpha" none] none (by decide)⟩

end MdastLint
